import Mathlib

/-!
Shallow embedding of the training driver of this repository
(src/train_sweep_kfold.py): the data-loader batching used by
getDataloader, the label codec and the stratified 5-fold planner it
calls, the validation-epoch metric aggregation, the selective custom
augmentation, the per-fold epoch-end state machine (best-metric
trackers, early stopping, checkpoint writes), and the end-of-run
aggregation of the per-fold best metrics.
-/

namespace TrainSweepKFold

/-- Images are opaque to the orchestration logic (the driver only moves
them between collaborators); we model them as integers so everything
stays executable. -/
abbrev Img := Int

/-! ### DataLoader batching (getDataloader, lines 116-141)

Both loaders are constructed with drop_last=True and shuffle=False.
A DataLoader with drop_last=True yields consecutive batches of exactly
batch_size samples and discards the final incomplete batch. -/

/-- One unrolling of the batch stream of a DataLoader with
drop_last=True: emit a full batch of size bs while at least bs samples
remain.  The fuel argument bounds the recursion; the length of the
input list is always enough fuel. -/
def dropLastBatchesAux (bs : Nat) : Nat → List α → List (List α)
  | 0, _ => []
  | fuel + 1, xs =>
    if 0 < bs ∧ bs ≤ xs.length then
      xs.take bs :: dropLastBatchesAux bs fuel (xs.drop bs)
    else []

/-- The batch stream of a DataLoader over xs with drop_last=True. -/
def dropLastBatches (bs : Nat) (xs : List α) : List (List α) :=
  dropLastBatchesAux bs xs.length xs

/-- The batch stream of a DataLoader with drop_last=False (kept only so
that the loader configuration record below has both behaviours; the
driver always sets drop_last=True). -/
def allBatchesAux (bs : Nat) : Nat → List α → List (List α)
  | 0, _ => []
  | fuel + 1, xs =>
    if 0 < bs ∧ 0 < xs.length then
      xs.take bs :: allBatchesAux bs fuel (xs.drop bs)
    else []

/-- All batches of a DataLoader with drop_last=False. -/
def allBatches (bs : Nat) (xs : List α) : List (List α) :=
  allBatchesAux bs xs.length xs

/-- The configuration getDataloader passes to each DataLoader
constructor (batch_size, num_workers, drop_last, shuffle). -/
structure DataLoaderCfg where
  batchSize : Nat
  numWorkers : Nat
  dropLast : Bool
  shuffle : Bool
deriving DecidableEq, Repr, Inhabited

/-- torch.utils.data.Subset: the samples of the dataset selected by a
list of indices, in index order. -/
def subsetOf (dataset : List (Img × Nat)) (idx : List Nat) : List (Img × Nat) :=
  idx.filterMap (fun i => dataset.get? i)

/-- getDataloader (lines 116-141): extract the train and valid subsets
and build one loader over each; both loaders get drop_last=True and
shuffle=False. -/
def getDataloader (dataset : List (Img × Nat)) (train_idx valid_idx : List Nat)
    (batch_size num_workers : Nat) :
    (List (Img × Nat) × DataLoaderCfg) × (List (Img × Nat) × DataLoaderCfg) :=
  let train_set := subsetOf dataset train_idx
  let val_set := subsetOf dataset valid_idx
  ((train_set, ⟨batch_size, num_workers, true, false⟩),
   (val_set, ⟨batch_size, num_workers, true, false⟩))

/-- The batches a loader yields in one epoch, as dictated by its
configuration. -/
def loaderBatches (loader : List (Img × Nat) × DataLoaderCfg) : List (List (Img × Nat)) :=
  if loader.2.dropLast then dropLastBatches loader.2.batchSize loader.1
  else allBatches loader.2.batchSize loader.1

/-! ### The multi-class label codec (train lines 237-242, grid_image lines 76-77)

Modelled from the spec: MaskBaseDataset.encode_multi_class and
MaskBaseDataset.decode_multi_class live in dataset.py, which is not part
of src/.  The spec describes them as the fixed bijection composing the
three sub-labels (mask of 3 values, gender of 2, age of 3) into one of
18 classes; this is the standard base-(3,2,3) positional code. -/

/-- Modelled from the spec: encode (mask, gender, age) into the single
multi-class label, mask * 6 + gender * 3 + age. -/
def encode_multi_class (mask gender age : Nat) : Nat :=
  mask * 6 + gender * 3 + age

/-- Modelled from the spec: decode a multi-class label back into its
(mask, gender, age) sub-labels. -/
def decode_multi_class (multi_class_label : Nat) : Nat × Nat × Nat :=
  (multi_class_label / 6 % 3, multi_class_label / 3 % 2, multi_class_label % 3)

/-! ### The stratified 5-fold planner (train lines 244-254)

Modelled from the spec: sklearn.model_selection.StratifiedKFold is an
external collaborator; only its call site (n_splits=5, no shuffling,
stratifying on the encoded labels) is in src/.  Without shuffling the
occurrences of each class, in input order, are cut into k nearly equal
contiguous runs (the first c % k runs one element longer), and fold j's
validation set collects run j of every class.  Train indices are the
complement of the validation indices. -/

/-- The run (fold number) containing the r-th occurrence of a class with
c occurrences when its occurrence list is cut into k nearly equal
contiguous runs. -/
def foldOfRank (c k r : Nat) : Nat :=
  let q := c / k
  let m := c % k
  if r < m * (q + 1) then r / (q + 1)
  else if q = 0 then r
  else m + (r - m * (q + 1)) / q

/-- Number of samples of the whole input sharing the label at position i. -/
def classCount (labels : List Nat) (i : Nat) : Nat :=
  (labels.filter (fun l => l = labels.getD i 0)).length

/-- Number of samples strictly before position i sharing the label at
position i. -/
def classRank (labels : List Nat) (i : Nat) : Nat :=
  ((labels.take i).filter (fun l => l = labels.getD i 0)).length

/-- Modelled from the spec: the validation fold the planner assigns to
sample i. -/
def foldAssign (labels : List Nat) (i : Nat) : Nat :=
  foldOfRank (classCount labels i) 5 (classRank labels i)

/-- The validation index list of fold k, in ascending index order. -/
def valIndices (labels : List Nat) (k : Nat) : List Nat :=
  (List.range labels.length).filter (fun i => foldAssign labels i = k)

/-- The train index list of fold k: all indices not in fold k's
validation set. -/
def trainIndices (labels : List Nat) (k : Nat) : List Nat :=
  (List.range labels.length).filter (fun i => ¬ foldAssign labels i = k)

/-- Modelled from the spec: the sequence of (train indices, validation
indices) pairs the planner yields, one per fold. -/
def kfoldPlan (labels : List Nat) : List (List Nat × List Nat) :=
  (List.range 5).map (fun k => (trainIndices labels k, valIndices labels k))

/-! ### The validation loop of one epoch (train lines 401-498) -/

/-- Index of the first maximal score, as torch.argmax over the class
dimension. -/
def argmaxGo : List ℚ → ℚ → Nat → Nat → Nat
  | [], _, bi, _ => bi
  | s :: rest, bv, bi, i =>
    if bv < s then argmaxGo rest s i (i + 1) else argmaxGo rest bv bi (i + 1)

/-- Predicted class of one sample: argmax of its logits. -/
def argmaxIdx : List ℚ → Nat
  | [] => 0
  | s :: rest => argmaxGo rest s 0 1

/-- Number of positions where prediction equals label,
(labels == preds).sum().item(). -/
def countEq (labels preds : List Nat) : Nat :=
  ((labels.zip preds).filter (fun p => p.1 = p.2)).length

/-- What one validation batch produces (lines 413-444): predictions from
the model outputs on the raw batch inputs, the batch loss from the
criterion, the correct-prediction count, and the batch macro-F1.  The
cutmix and custom-augmentation steps present in the train loop are
absent here (they are commented out in the source, lines 418-432).  The
model net, the loss criterion crit and the macro-F1 scorer f1fn are
opaque collaborators. -/
structure ValBatchOut where
  preds : List Nat
  lossItem : ℚ
  accItem : Nat
  f1Item : ℚ
deriving DecidableEq, Repr, Inhabited

/-- Processing of one validation batch. -/
def valBatch (net : Img → List ℚ) (crit : List (List ℚ) → List Nat → ℚ)
    (f1fn : List Nat → List Nat → ℚ) (batch : List (Img × Nat)) : ValBatchOut :=
  let inputs := batch.map Prod.fst
  let labels := batch.map Prod.snd
  let outs := inputs.map net
  let preds := outs.map argmaxIdx
  { preds := preds
    lossItem := crit outs labels
    accItem := countEq labels preds
    f1Item := f1fn labels preds }

/-- The accumulation loop over the validation batches: val_loss_items,
val_acc_items and val_f1_items each get one element appended per batch
(lines 442-444). -/
def valItems (net : Img → List ℚ) (crit : List (List ℚ) → List Nat → ℚ)
    (f1fn : List Nat → List Nat → ℚ) (batches : List (List (Img × Nat))) :
    List ℚ × List Nat × List ℚ :=
  batches.foldl
    (fun acc b =>
      let o := valBatch net crit f1fn b
      (acc.1 ++ [o.lossItem], acc.2.1 ++ [o.accItem], acc.2.2 ++ [o.f1Item]))
    ([], [], [])

/-- The three scalars reported at the end of a validation epoch. -/
structure ValEpochOut where
  valLoss : ℚ
  valAcc : ℚ
  valF1 : ℚ
deriving DecidableEq, Repr, Inhabited

/-- End-of-epoch aggregation (lines 496-498): summed loss and macro-F1
divided by the number of validation batches, summed correct count
divided by the size of the validation subset. -/
def valEpoch (net : Img → List ℚ) (crit : List (List ℚ) → List Nat → ℚ)
    (f1fn : List Nat → List Nat → ℚ) (bs : Nat) (valSet : List (Img × Nat)) :
    ValEpochOut :=
  let batches := dropLastBatches bs valSet
  let items := valItems net crit f1fn batches
  { valLoss := items.1.sum / (batches.length : ℚ)
    valAcc := (items.2.1.sum : ℚ) / (valSet.length : ℚ)
    valF1 := items.2.2.sum / (batches.length : ℚ) }

/-! ### The selective custom augmentation (train lines 343-351) -/

/-- The class indices exempt from the custom augmentation. -/
def exemptLabels : List Nat := [0, 1, 3, 4]

/-- The per-batch custom-augmentation loop: a sample is augmented
exactly when its label is not in the exempt list, and passed through
unchanged otherwise. -/
def applyCustomAug (aug : Img → Img) : List (Img × Nat) → List Img
  | [] => []
  | (input, label) :: rest =>
    (if label ∉ exemptLabels then aug input else input) :: applyCustomAug aug rest

/-! ### Per-fold epoch-end state machine (train lines 308-314 and 499-527)

State per fold: best_val_loss (initially np.inf, modelled as the top
element of WithTop), best_val_acc, best_val_f1 (initially 0), and the
early-stopping counter (initially 0, patience fixed at 5). -/

/-- The three validation scalars of one epoch that drive the epoch-end
block. -/
structure Metrics where
  loss : ℚ
  acc : ℚ
  f1 : ℚ
deriving DecidableEq, Repr, Inhabited

/-- The per-fold tracker state. -/
structure FoldState where
  bestLoss : WithTop ℚ
  bestAcc : ℚ
  bestF1 : ℚ
  counter : Nat
deriving DecidableEq, Inhabited

/-- The state at the start of every fold (lines 308-314). -/
def initFoldState : FoldState :=
  { bestLoss := ⊤, bestAcc := 0, bestF1 := 0, counter := 0 }

/-- Running minimum of an extended value and a rational, min(best, x)
with best possibly np.inf. -/
def minT (b : WithTop ℚ) (x : ℚ) : WithTop ℚ :=
  min b (x : WithTop ℚ)

/-- The epoch-end update (lines 503-518): best_val_loss takes the
minimum, best_val_acc the maximum, then best_val_f1 and the counter are
updated by the strict-improvement test; the returned Bool is whether the
best checkpoint was saved in this epoch. -/
def epochEnd (s : FoldState) (m : Metrics) : FoldState × Bool :=
  let s1 : FoldState :=
    { s with bestLoss := min s.bestLoss (m.loss : WithTop ℚ),
             bestAcc := max s.bestAcc m.acc }
  if s1.bestF1 < m.f1 then
    ({ s1 with bestF1 := m.f1, counter := 0 }, true)
  else
    ({ s1 with counter := s1.counter + 1 }, false)

/-- The state part of the epoch-end update. -/
def epochEndState (s : FoldState) (m : Metrics) : FoldState :=
  (epochEnd s m).1

/-- The record of one executed epoch of a fold. -/
structure EpochLog where
  m : Metrics
  before : FoldState
  after : FoldState
  savedBest : Bool
  savedLast : Bool
  stopped : Bool
deriving DecidableEq, Inhabited

/-- The epoch loop of one fold (lines 316-527 restricted to the
epoch-end block): each planned epoch produces its validation metrics;
the tracker state is updated, then the loop breaks - before the last
checkpoint of the epoch is written - as soon as the counter exceeds the
patience of 5; otherwise last.pth is written and the loop continues. -/
def runFold (s : FoldState) : List Metrics → List EpochLog
  | [] => []
  | m :: rest =>
    let s' := (epochEnd s m).1
    let saved := (epochEnd s m).2
    if 5 < s'.counter then
      [{ m := m, before := s, after := s', savedBest := saved,
         savedLast := false, stopped := true }]
    else
      { m := m, before := s, after := s', savedBest := saved,
        savedLast := true, stopped := false } :: runFold s' rest

/-- The tracker state an uninterrupted sequence of epoch-end updates
produces. -/
def foldStates (s : FoldState) (l : List Metrics) : FoldState :=
  l.foldl epochEndState s

/-- The tracker state at the end of a fold's epoch loop, with the early
stop applied (what lines 541-543 read). -/
def foldFinal (s : FoldState) : List Metrics → FoldState
  | [] => s
  | m :: rest =>
    let s' := (epochEnd s m).1
    if 5 < s'.counter then s' else foldFinal s' rest

/-! ### Concrete scenarios used to instantiate the theorems -/

/-- A concrete nine-epoch metric schedule: the validation F1 improves in
epochs 1 and 2, then plateaus, so the early-stop counter reaches 6 in
epoch 8 and the ninth planned epoch never runs. -/
def epochSchedule : List Metrics :=
  [⟨5, 1, 1⟩, ⟨4, 2, 2⟩, ⟨6, 1, 1⟩, ⟨6, 1, 1⟩, ⟨6, 1, 1⟩,
   ⟨6, 1, 1⟩, ⟨6, 1, 1⟩, ⟨6, 1, 1⟩, ⟨9, 9, 9⟩]

/-- The log of the eighth executed epoch of the schedule above (the
early-stopping one). -/
def epochSchedule7 : EpochLog :=
  (runFold initFoldState epochSchedule).getD 7 default

/-- A concrete augmentation used to instantiate the augmentation-policy
theorem. -/
def probeAug : Img → Img := fun x => x + 1

/-- A concrete two-logit model used to instantiate the validation
theorems. -/
def probeNet : Img → List ℚ := fun _ => [0, 1]

/-- A concrete criterion used to instantiate the validation theorems. -/
def probeCrit : List (List ℚ) → List Nat → ℚ := fun _ _ => 0

/-- A concrete macro-F1 scorer used to instantiate the validation
theorems. -/
def probeF1 : List Nat → List Nat → ℚ := fun _ _ => 0

/-- A concrete train batch: one exempt-label sample and one
augmentable-label sample. -/
def augBatchProbe : List (Img × Nat) := [(10, 0), (11, 2)]

/-- A concrete validation subset of three samples, not a multiple of the
batch size 2. -/
def valSetProbe : List (Img × Nat) := [(7, 1), (8, 1), (9, 0)]

/-- The single full batch the validation loader yields over
valSetProbe with batch size 2. -/
def valBatchProbe : List (Img × Nat) := [(7, 1), (8, 1)]

/-! ### Checkpoint paths (lines 150, 512-513, 522)

save_dir is computed once per run, before the fold loop; every fold
writes to the same two files inside it. -/

/-- The save directory used during fold number fold: the run-level
save_dir, independent of the fold (line 150 is outside the fold loop). -/
def foldSaveDir (save_dir : String) (fold : Nat) : String :=
  save_dir

/-- Path of the best checkpoint (line 513). -/
def bestCkptPath (save_dir : String) : String :=
  save_dir ++ "/best.pth"

/-- Path of the last checkpoint (line 522). -/
def lastCkptPath (save_dir : String) : String :=
  save_dir ++ "/last.pth"

/-- The checkpoint writes one fold performs, in order: per executed
epoch, best.pth when the best model improved, then last.pth unless the
epoch stopped early. -/
def foldEvents (save_dir : String) (fold : Nat) (ms : List Metrics) : List String :=
  ((runFold initFoldState ms).map (fun log =>
    (if log.savedBest then [bestCkptPath (foldSaveDir save_dir fold)] else []) ++
    (if log.savedLast then [lastCkptPath (foldSaveDir save_dir fold)] else []))).flatten

/-- All checkpoint writes of a run, fold by fold. -/
def runEvents (save_dir : String) (foldsMs : List (List Metrics)) : List String :=
  ((List.range foldsMs.length).zip foldsMs).map
    (fun p => foldEvents save_dir p.1 p.2) |>.flatten

/-! ### End-of-run aggregation (lines 246-248, 541-543, 548-554) -/

/-- The three per-fold result lists the run builds up
(kfold_val_loss, kfold_val_acc, kfold_val_f1). -/
structure RunState where
  kfoldValLoss : List (WithTop ℚ)
  kfoldValAcc : List ℚ
  kfoldValF1 : List ℚ
deriving DecidableEq, Inhabited

/-- The fold loop's collection of per-fold bests: after each fold the
final best loss, accuracy and F1 are appended (lines 541-543). -/
def runKFold (foldsMs : List (List Metrics)) : RunState :=
  foldsMs.foldl
    (fun rs ms =>
      let s := foldFinal initFoldState ms
      { kfoldValLoss := rs.kfoldValLoss ++ [s.bestLoss],
        kfoldValAcc := rs.kfoldValAcc ++ [s.bestAcc],
        kfoldValF1 := rs.kfoldValF1 ++ [s.bestF1] })
    { kfoldValLoss := [], kfoldValAcc := [], kfoldValF1 := [] }

/-- Division of an IEEE-style extended value by a count
(np.inf / n = np.inf). -/
def divTop (x : WithTop ℚ) (n : Nat) : WithTop ℚ :=
  x.map (fun v => v / (n : ℚ))

/-- The three headline numbers printed at line 552-554, with the labels
used there. -/
structure FinalReport where
  meanAcc : WithTop ℚ
  meanLoss : ℚ
  meanF1 : ℚ
deriving DecidableEq, Inhabited

/-- The final report (lines 548-554): the value labelled mean acc is
np.sum(kfold_val_loss) / n_splits, the value labelled mean loss is
np.sum(kfold_val_acc) / n_splits, and mean F1 is
np.sum(kfold_val_f1) / n_splits, with n_splits = 5. -/
def finalReport (foldsMs : List (List Metrics)) : FinalReport :=
  let rs := runKFold foldsMs
  { meanAcc := divTop rs.kfoldValLoss.sum 5
    meanLoss := rs.kfoldValAcc.sum / 5
    meanF1 := rs.kfoldValF1.sum / 5 }

/-! ## Lemmas about the DataLoader batch stream -/

theorem dropLastBatchesAux_length {α : Type _} (bs : Nat) (hbs : 0 < bs) :
    ∀ (fuel : Nat) (xs : List α), xs.length ≤ fuel →
      (dropLastBatchesAux bs fuel xs).length = xs.length / bs := by
  intro fuel
  induction fuel with
  | zero =>
    intro xs h
    have h0 : xs.length = 0 := Nat.le_zero.mp h
    simp [dropLastBatchesAux, h0]
  | succ fuel ih =>
    intro xs h
    by_cases hle : bs ≤ xs.length
    · rw [dropLastBatchesAux, if_pos ⟨hbs, hle⟩, List.length_cons,
        ih (xs.drop bs) (by simp only [List.length_drop]; omega)]
      rw [List.length_drop, Nat.div_eq xs.length bs, if_pos ⟨hbs, hle⟩]
    · rw [dropLastBatchesAux, if_neg (by tauto), List.length_nil,
        Nat.div_eq_of_lt (Nat.lt_of_not_le hle)]

theorem dropLastBatches_length {α : Type _} (bs : Nat) (hbs : 0 < bs) (xs : List α) :
    (dropLastBatches bs xs).length = xs.length / bs :=
  dropLastBatchesAux_length bs hbs xs.length xs le_rfl

theorem dropLastBatchesAux_flatten {α : Type _} (bs : Nat) (hbs : 0 < bs) :
    ∀ (fuel : Nat) (xs : List α), xs.length ≤ fuel →
      (dropLastBatchesAux bs fuel xs).flatten = xs.take (bs * (xs.length / bs)) := by
  intro fuel
  induction fuel with
  | zero =>
    intro xs h
    have h0 : xs.length = 0 := Nat.le_zero.mp h
    have hnil : xs = [] := List.length_eq_zero.mp h0
    simp [dropLastBatchesAux, hnil]
  | succ fuel ih =>
    intro xs h
    by_cases hle : bs ≤ xs.length
    · rw [dropLastBatchesAux, if_pos ⟨hbs, hle⟩, List.flatten_cons,
        ih (xs.drop bs) (by simp only [List.length_drop]; omega)]
      have hdiv : xs.length / bs = (xs.length - bs) / bs + 1 := by
        rw [Nat.div_eq xs.length bs, if_pos ⟨hbs, hle⟩]
      rw [List.length_drop, hdiv, Nat.mul_succ, Nat.add_comm (bs * ((xs.length - bs) / bs)) bs,
        List.take_add]
    · rw [dropLastBatchesAux, if_neg (by tauto),
        Nat.div_eq_of_lt (Nat.lt_of_not_le hle), Nat.mul_zero, List.take_zero]
      rfl

theorem dropLastBatches_flatten {α : Type _} (bs : Nat) (hbs : 0 < bs) (xs : List α) :
    (dropLastBatches bs xs).flatten = xs.take (bs * (xs.length / bs)) :=
  dropLastBatchesAux_flatten bs hbs xs.length xs le_rfl

/-! ## Claim theorems -/

/-- C7: for every fold, the training data loader is constructed with
drop_last=True and shuffle=False (and no loader-level shuffling), so over
a training subset of size train_count with batch size 64 it yields
exactly train_count / 64 (floor division) batches per epoch. -/
theorem trainLoader_drops_incomplete_batch (dataset : List (Img × Nat))
    (train_idx valid_idx : List Nat) (num_workers : Nat) :
    ((getDataloader dataset train_idx valid_idx 64 num_workers).1.2.dropLast = true ∧
      (getDataloader dataset train_idx valid_idx 64 num_workers).1.2.shuffle = false) ∧
    (loaderBatches (getDataloader dataset train_idx valid_idx 64 num_workers).1).length =
      (subsetOf dataset train_idx).length / 64 := by
  refine ⟨⟨rfl, rfl⟩, ?_⟩
  simp only [getDataloader, loaderBatches, if_pos]
  exact dropLastBatches_length 64 (by omega) _

/-- C9: for every valid (mask, gender, age) triple of sub-labels,
decoding the multi-class label obtained by encoding the triple returns
the original triple. -/
theorem decode_encode_roundtrip (mask gender age : Nat)
    (hm : mask < 3) (hg : gender < 2) (ha : age < 3) :
    decode_multi_class (encode_multi_class mask gender age) = (mask, gender, age) := by
  interval_cases mask <;> interval_cases gender <;> interval_cases age <;> decide

/-- Witness for C9 at the concrete triple (2, 1, 2). -/
theorem decode_encode_roundtrip_witness :
    decode_multi_class (encode_multi_class 2 1 2) = (2, 1, 2) :=
  decode_encode_roundtrip 2 1 2 (by decide) (by decide) (by decide)

/-! ## Lemmas about the stratified fold planner -/

theorem foldOfRank_lt {c k r : Nat} (hk : 0 < k) (hr : r < c) :
    foldOfRank c k r < k := by
  have hmod : k * (c / k) + c % k = c := Nat.div_add_mod c k
  have hm : c % k < k := Nat.mod_lt c hk
  rw [foldOfRank]
  by_cases h1 : r < c % k * (c / k + 1)
  · rw [if_pos h1]
    exact lt_trans ((Nat.div_lt_iff_lt_mul (Nat.succ_pos _)).mpr h1) hm
  · rw [if_neg h1]
    by_cases hq : c / k = 0
    · rw [if_pos hq]
      rw [hq, Nat.mul_zero, Nat.zero_add] at hmod
      omega
    · rw [if_neg hq]
      have hqpos : 0 < c / k := Nat.pos_of_ne_zero hq
      have hsub : (r - c % k * (c / k + 1)) / (c / k) < k - c % k := by
        rw [Nat.div_lt_iff_lt_mul hqpos]
        have hmul : c % k * (c / k + 1) = c % k * (c / k) + c % k := Nat.mul_succ _ _
        have hsubmul : (k - c % k) * (c / k) = k * (c / k) - c % k * (c / k) :=
          Nat.sub_mul k (c % k) (c / k)
        have hle : c % k * (c / k) ≤ k * (c / k) :=
          Nat.mul_le_mul_right (c / k) (le_of_lt hm)
        omega
      omega

theorem classRank_lt_classCount (labels : List Nat) (i : Nat) (hi : i < labels.length) :
    classRank labels i < classCount labels i := by
  rw [classRank, classCount]
  have hsplit : labels.filter (fun l => l = labels.getD i 0) =
      (labels.take i).filter (fun l => l = labels.getD i 0) ++
        (labels.drop i).filter (fun l => l = labels.getD i 0) := by
    rw [← List.filter_append, List.take_append_drop]
  have hdrop : labels.drop i = labels[i] :: labels.drop (i + 1) :=
    List.drop_eq_getElem_cons hi
  have hget : labels[i] = labels.getD i 0 := by
    simp [List.getD, List.getElem?_eq_getElem hi]
  have hcons : (labels.drop i).filter (fun l => l = labels.getD i 0) =
      labels[i] :: (labels.drop (i + 1)).filter (fun l => l = labels.getD i 0) := by
    rw [hdrop, List.filter_cons, if_pos (by simp [hget])]
  rw [hsplit, List.length_append, hcons, List.length_cons]
  omega

theorem foldAssign_lt (labels : List Nat) (i : Nat) (hi : i < labels.length) :
    foldAssign labels i < 5 :=
  foldOfRank_lt (by omega) (classRank_lt_classCount labels i hi)

theorem mem_valIndices (labels : List Nat) (k i : Nat) :
    i ∈ valIndices labels k ↔ i < labels.length ∧ foldAssign labels i = k := by
  simp [valIndices, List.mem_filter, List.mem_range]

/-- C2: for every run, the fold planner produces exactly 5
(train-indices, validation-indices) pairs; each pair's train indices are
exactly the indices outside its validation indices; the validation index
sets are pairwise disjoint; their union covers exactly the full index
set of the dataset; and the plan is deterministic, a function of the
input order of the labels alone. -/
theorem kfoldPlan_partition (labels : List Nat) :
    (kfoldPlan labels).length = 5 ∧
    (∀ k, (kfoldPlan labels).getD k ([], []) =
      (trainIndices labels k, valIndices labels k) ∨ ¬ k < 5) ∧
    (∀ k i, i ∈ trainIndices labels k ↔ i < labels.length ∧ i ∉ valIndices labels k) ∧
    (∀ k k' i, ¬ k = k' → i ∈ valIndices labels k → i ∉ valIndices labels k') ∧
    (∀ i, i < labels.length ↔ ∃ k, k < 5 ∧ i ∈ valIndices labels k) ∧
    (∀ labels', labels = labels' → kfoldPlan labels = kfoldPlan labels') := by
  refine ⟨by simp [kfoldPlan], ?_, ?_, ?_, ?_, ?_⟩
  · intro k
    by_cases hk : k < 5
    · left
      rw [kfoldPlan]
      rw [List.getD_eq_getElem?_getD]
      simp [List.getElem?_map, List.getElem?_range, hk]
    · right; exact hk
  · intro k i
    simp only [trainIndices, List.mem_filter, List.mem_range, mem_valIndices,
      decide_eq_true_eq]
    tauto
  · intro k k' i hkk hk
    rw [mem_valIndices] at *
    intro hk'
    exact hkk (hk.2 ▸ hk'.2 ▸ rfl)
  · intro i
    constructor
    · intro hi
      exact ⟨foldAssign labels i, foldAssign_lt labels i hi,
        (mem_valIndices labels _ i).mpr ⟨hi, rfl⟩⟩
    · rintro ⟨k, -, hk⟩
      exact ((mem_valIndices labels k i).mp hk).1
  · intro labels' h
    rw [h]

/-- Witness for C2 on a concrete dataset of ten samples of one class:
validation folds 0 and 1 are disjoint and index 0 falls in some fold. -/
theorem kfoldPlan_partition_witness :
    (0 : Nat) ∉ valIndices [0, 0, 0, 0, 0, 0, 0, 0, 0, 0] 1 ∧
    ((0 : Nat) < 10 ↔ ∃ k, k < 5 ∧ 0 ∈ valIndices [0, 0, 0, 0, 0, 0, 0, 0, 0, 0] k) := by
  have h := kfoldPlan_partition [0, 0, 0, 0, 0, 0, 0, 0, 0, 0]
  refine ⟨h.2.2.2.1 0 1 0 (by decide) (by decide), ?_⟩
  have h5 := h.2.2.2.2.1 0
  simpa using h5

/-! ## Lemmas about the per-fold epoch-end state machine -/

theorem epochEndState_eq (s : FoldState) (m : Metrics) :
    epochEndState s m =
      { bestLoss := min s.bestLoss (m.loss : WithTop ℚ),
        bestAcc := max s.bestAcc m.acc,
        bestF1 := max s.bestF1 m.f1,
        counter := if s.bestF1 < m.f1 then 0 else s.counter + 1 } := by
  rw [epochEndState, epochEnd]
  by_cases h : s.bestF1 < m.f1
  · simp [h, max_eq_right (le_of_lt h)]
  · simp [h, max_eq_left (le_of_not_lt h)]

theorem epochEnd_snd (s : FoldState) (m : Metrics) :
    (epochEnd s m).2 = decide (s.bestF1 < m.f1) := by
  rw [epochEnd]
  by_cases h : s.bestF1 < m.f1 <;> simp [h]

theorem runFold_length_le (s : FoldState) (ms : List Metrics) :
    (runFold s ms).length ≤ ms.length := by
  induction ms generalizing s with
  | nil => simp [runFold]
  | cons m rest ih =>
    rw [runFold]
    by_cases h : 5 < ((epochEnd s m).1).counter
    · simp only [if_pos h, List.length_cons, List.length_nil]
      omega
    · simp only [if_neg h, List.length_cons]
      exact Nat.succ_le_succ (ih _)

theorem runFold_map_m (s : FoldState) (ms : List Metrics) :
    (runFold s ms).map EpochLog.m = ms.take (runFold s ms).length := by
  induction ms generalizing s with
  | nil => simp [runFold]
  | cons m rest ih =>
    rw [runFold]
    by_cases h : 5 < ((epochEnd s m).1).counter
    · simp only [if_pos h, List.map_cons, List.map_nil, List.length_singleton,
        List.take_succ_cons, List.take_zero]
    · simp only [if_neg h, List.map_cons, List.length_cons, List.take_succ_cons]
      rw [ih]

theorem runFold_mem_step (s : FoldState) (ms : List Metrics) :
    ∀ log ∈ runFold s ms,
      log.after = epochEndState log.before log.m ∧
      log.savedBest = decide (log.before.bestF1 < log.m.f1) ∧
      log.stopped = decide (5 < log.after.counter) ∧
      log.savedLast = !log.stopped := by
  induction ms generalizing s with
  | nil => intro log h; simp [runFold] at h
  | cons m rest ih =>
    intro log hlog
    rw [runFold] at hlog
    by_cases h : 5 < ((epochEnd s m).1).counter
    · rw [if_pos h] at hlog
      rw [List.mem_singleton] at hlog
      subst hlog
      exact ⟨rfl, epochEnd_snd s m, by simp [h], rfl⟩
    · rw [if_neg h] at hlog
      rcases List.mem_cons.mp hlog with h1 | h1
      · subst h1
        exact ⟨rfl, epochEnd_snd s m, by simp [h], rfl⟩
      · exact ih _ log h1

theorem runFold_before_getElem (s : FoldState) (ms : List Metrics) :
    ∀ (i : Nat) (log : EpochLog), (runFold s ms)[i]? = some log →
      log.before = foldStates s (ms.take i) := by
  induction ms generalizing s with
  | nil => intro i log h; simp [runFold] at h
  | cons m rest ih =>
    intro i log h
    rw [runFold] at h
    by_cases h5 : 5 < ((epochEnd s m).1).counter
    · rw [if_pos h5] at h
      match i with
      | 0 =>
        rw [List.getElem?_cons_zero, Option.some_inj] at h
        subst h
        rfl
      | i + 1 => simp at h
    · rw [if_neg h5] at h
      match i with
      | 0 =>
        rw [List.getElem?_cons_zero, Option.some_inj] at h
        subst h
        rfl
      | i + 1 =>
        rw [List.getElem?_cons_succ] at h
        rw [List.take_succ_cons]
        exact ih _ _ _ h

theorem runFold_after_getElem (s : FoldState) (ms : List Metrics) :
    ∀ (i : Nat) (log : EpochLog), (runFold s ms)[i]? = some log →
      log.after = foldStates s (ms.take (i + 1)) := by
  induction ms generalizing s with
  | nil => intro i log h; simp [runFold] at h
  | cons m rest ih =>
    intro i log h
    rw [runFold] at h
    by_cases h5 : 5 < ((epochEnd s m).1).counter
    · rw [if_pos h5] at h
      match i with
      | 0 =>
        rw [List.getElem?_cons_zero, Option.some_inj] at h
        subst h
        rfl
      | i + 1 => simp at h
    · rw [if_neg h5] at h
      match i with
      | 0 =>
        rw [List.getElem?_cons_zero, Option.some_inj] at h
        subst h
        rfl
      | i + 1 =>
        rw [List.getElem?_cons_succ] at h
        rw [List.take_succ_cons]
        exact ih _ _ _ h

theorem runFold_stopped_not_last (s : FoldState) (ms : List Metrics) :
    ∀ (i : Nat) (log log' : EpochLog), (runFold s ms)[i]? = some log →
      (runFold s ms)[i + 1]? = some log' → log.stopped = false := by
  induction ms generalizing s with
  | nil => intro i log log' h _; simp [runFold] at h
  | cons m rest ih =>
    intro i log log' h h'
    rw [runFold] at h h'
    by_cases h5 : 5 < ((epochEnd s m).1).counter
    · rw [if_pos h5] at h'
      match i with
      | 0 => simp at h'
      | i + 1 => simp at h'
    · rw [if_neg h5] at h h'
      match i with
      | 0 =>
        rw [List.getElem?_cons_zero, Option.some_inj] at h
        subst h
        rfl
      | i + 1 =>
        rw [List.getElem?_cons_succ] at h h'
        exact ih _ _ _ _ h h'

theorem runFold_termination (s : FoldState) (ms : List Metrics) :
    (runFold s ms).length = ms.length ∨
      ∃ log, (runFold s ms).getLast? = some log ∧ log.stopped = true := by
  induction ms generalizing s with
  | nil => left; simp [runFold]
  | cons m rest ih =>
    rw [runFold]
    by_cases h5 : 5 < ((epochEnd s m).1).counter
    · rw [if_pos h5]
      right
      exact ⟨_, rfl, rfl⟩
    · rw [if_neg h5]
      rcases ih ((epochEnd s m).1) with hlen | ⟨log, hlast, hstop⟩
      · left
        rw [List.length_cons, hlen, List.length_cons]
      · right
        refine ⟨log, ?_, hstop⟩
        match htail : runFold (epochEnd s m).1 rest with
        | [] => rw [htail] at hlast; simp at hlast
        | x :: xs =>
          rw [htail] at hlast
          rw [List.getLast?_cons_cons, hlast]

theorem foldStates_bestLoss (l : List Metrics) :
    ∀ s : FoldState, (foldStates s l).bestLoss =
      (l.map Metrics.loss).foldl minT s.bestLoss := by
  induction l with
  | nil => intro s; rfl
  | cons m rest ih =>
    intro s
    have hstep : foldStates s (m :: rest) = foldStates (epochEndState s m) rest := rfl
    rw [hstep, ih, List.map_cons, List.foldl_cons, epochEndState_eq, minT]

theorem foldStates_bestAcc (l : List Metrics) :
    ∀ s : FoldState, (foldStates s l).bestAcc =
      (l.map Metrics.acc).foldl max s.bestAcc := by
  induction l with
  | nil => intro s; rfl
  | cons m rest ih =>
    intro s
    have hstep : foldStates s (m :: rest) = foldStates (epochEndState s m) rest := rfl
    rw [hstep, ih, List.map_cons, List.foldl_cons, epochEndState_eq]

theorem foldStates_bestF1 (l : List Metrics) :
    ∀ s : FoldState, (foldStates s l).bestF1 =
      (l.map Metrics.f1).foldl max s.bestF1 := by
  induction l with
  | nil => intro s; rfl
  | cons m rest ih =>
    intro s
    have hstep : foldStates s (m :: rest) = foldStates (epochEndState s m) rest := rfl
    rw [hstep, ih, List.map_cons, List.foldl_cons, epochEndState_eq]

/-! ## Lemmas about running minima and maxima -/

theorem foldl_max_bounds (l : List ℚ) :
    ∀ b : ℚ, b ≤ l.foldl max b ∧ ∀ x ∈ l, x ≤ l.foldl max b := by
  induction l with
  | nil => intro b; exact ⟨le_rfl, by simp⟩
  | cons y ys ih =>
    intro b
    rw [List.foldl_cons]
    refine ⟨le_trans (le_max_left b y) (ih (max b y)).1, ?_⟩
    intro x hx
    rcases List.mem_cons.mp hx with h | h
    · subst h
      exact le_trans (le_max_right b x) (ih (max b x)).1
    · exact (ih (max b y)).2 x h

theorem foldl_max_attained (l : List ℚ) :
    ∀ b : ℚ, l.foldl max b = b ∨ ∃ x ∈ l, l.foldl max b = x := by
  induction l with
  | nil => intro b; exact Or.inl rfl
  | cons y ys ih =>
    intro b
    rw [List.foldl_cons]
    rcases ih (max b y) with h | ⟨x, hx, hfx⟩
    · by_cases hby : y ≤ b
      · left
        rw [h, max_eq_left hby]
      · right
        exact ⟨y, List.mem_cons_self y ys, by rw [h, max_eq_right (le_of_not_le hby)]⟩
    · right
      exact ⟨x, List.mem_cons_of_mem y hx, hfx⟩

theorem foldl_minT_bounds (l : List ℚ) :
    ∀ b : WithTop ℚ, l.foldl minT b ≤ b ∧
      ∀ x ∈ l, l.foldl minT b ≤ (x : WithTop ℚ) := by
  induction l with
  | nil => intro b; exact ⟨le_rfl, by simp⟩
  | cons y ys ih =>
    intro b
    rw [List.foldl_cons]
    refine ⟨le_trans (ih _).1 (min_le_left b _), ?_⟩
    intro x hx
    rcases List.mem_cons.mp hx with h | h
    · subst h
      exact le_trans (ih _).1 (min_le_right b _)
    · exact (ih _).2 x h

theorem foldl_minT_attained (l : List ℚ) :
    ∀ b : WithTop ℚ, l.foldl minT b = b ∨
      ∃ x ∈ l, l.foldl minT b = (x : WithTop ℚ) := by
  induction l with
  | nil => intro b; exact Or.inl rfl
  | cons y ys ih =>
    intro b
    rw [List.foldl_cons]
    rcases ih (minT b y) with h | ⟨x, hx, hfx⟩
    · by_cases hby : b ≤ (y : WithTop ℚ)
      · left
        rw [h, minT, min_eq_left hby]
      · right
        refine ⟨y, List.mem_cons_self y ys, ?_⟩
        rw [h, minT, min_eq_right (le_of_not_le hby)]
    · right
      exact ⟨x, List.mem_cons_of_mem y hx, hfx⟩

/-- C1: for every fold, in each executed epoch the early-stop counter is
0 exactly when the epoch's validation F1 strictly exceeds the best
validation F1 seen so far in that fold (the running maximum of the
earlier epochs' F1 values, starting from the initial best of 0 - F1
scores are nonnegative, so this is the best seen so far), and is the
previous counter plus 1 otherwise; the epoch loop stops early exactly in
an epoch whose counter exceeds the fixed patience of 5 (every epoch with
a successor has a counter of at most 5, and the trace either covers all
planned epochs or ends in a stopping epoch); and a stopping epoch exits
before the last checkpoint for the epoch is persisted (savedLast is the
negation of stopped). -/
theorem earlyStopping_spec (ms : List Metrics) :
    ((runFold initFoldState ms).map EpochLog.m =
      ms.take (runFold initFoldState ms).length) ∧
    (∀ (i : Nat) (log : EpochLog), (runFold initFoldState ms)[i]? = some log →
      log.before.bestF1 = ((ms.take i).map Metrics.f1).foldl max 0 ∧
      (log.after.counter = 0 ↔ log.before.bestF1 < log.m.f1) ∧
      (¬ log.before.bestF1 < log.m.f1 →
        log.after.counter = log.before.counter + 1)) ∧
    (∀ log ∈ runFold initFoldState ms,
      (log.stopped = true ↔ 5 < log.after.counter) ∧
      log.savedLast = !log.stopped) ∧
    (∀ (i : Nat) (log log' : EpochLog), (runFold initFoldState ms)[i]? = some log →
      (runFold initFoldState ms)[i + 1]? = some log' → log.stopped = false) ∧
    ((runFold initFoldState ms).length = ms.length ∨
      ∃ log, (runFold initFoldState ms).getLast? = some log ∧ log.stopped = true) := by
  refine ⟨runFold_map_m _ _, ?_, ?_, runFold_stopped_not_last _ _,
    runFold_termination _ _⟩
  · intro i log hget
    have hmem : log ∈ runFold initFoldState ms := List.getElem?_mem hget
    have hstep := runFold_mem_step initFoldState ms log hmem
    have hbefore := runFold_before_getElem initFoldState ms i log hget
    have hbest : log.before.bestF1 = ((ms.take i).map Metrics.f1).foldl max 0 := by
      rw [hbefore, foldStates_bestF1]
      rfl
    refine ⟨hbest, ?_, ?_⟩
    · rw [hstep.1, epochEndState_eq]
      by_cases h : log.before.bestF1 < log.m.f1
      · simpa [h] using h
      · simp [h]
    · intro h
      rw [hstep.1, epochEndState_eq]
      simp [h]
  · intro log hmem
    have hstep := runFold_mem_step initFoldState ms log hmem
    refine ⟨?_, hstep.2.2.2⟩
    rw [hstep.2.2.1]
    simp

/-- Witness for C1 on the concrete nine-epoch schedule: the eighth
executed epoch fails the strict-improvement test, so its counter is the
previous counter plus 1 (reaching 6), and it stops without persisting
the last checkpoint. -/
theorem earlyStopping_spec_witness :
    epochSchedule7.after.counter = epochSchedule7.before.counter + 1 ∧
    epochSchedule7.savedLast = false ∧
    (runFold initFoldState epochSchedule).length = 8 := by
  have h := earlyStopping_spec epochSchedule
  have h2 := h.2.1 7 epochSchedule7 (by decide)
  have h3 := h.2.2.1 epochSchedule7 (by decide)
  refine ⟨h2.2.2 (by decide), ?_, by decide⟩
  rw [h3.2]
  decide

/-- C3: within every fold, across the executed epochs, the best-loss
tracker equals the running minimum of the validation losses seen so far
(so it is non-increasing), the best-accuracy tracker equals the running
maximum of the validation accuracies seen so far (so it is
non-decreasing; equality with the maximum seen uses the nonnegativity of
accuracies), the best-F1 tracker is non-decreasing and is updated -
together with persisting a best checkpoint - exactly when the current
validation F1 strictly exceeds the previous best; and each tracker is a
function of its own metric sequence alone (the fold of its own
projection), so the three are maintained independently. -/
theorem bestTrackers_spec (ms : List Metrics) (hacc : ∀ m ∈ ms, 0 ≤ m.acc) :
    (∀ (i : Nat) (log : EpochLog), (runFold initFoldState ms)[i]? = some log →
      (log.after.bestLoss = ((ms.take (i + 1)).map Metrics.loss).foldl minT ⊤ ∧
       log.after.bestAcc = ((ms.take (i + 1)).map Metrics.acc).foldl max 0 ∧
       log.after.bestF1 = ((ms.take (i + 1)).map Metrics.f1).foldl max 0) ∧
      ((∃ x ∈ ms.take (i + 1), log.after.bestLoss = (x.loss : WithTop ℚ)) ∧
       (∀ x ∈ ms.take (i + 1), log.after.bestLoss ≤ (x.loss : WithTop ℚ)) ∧
       (∃ x ∈ ms.take (i + 1), log.after.bestAcc = x.acc) ∧
       (∀ x ∈ ms.take (i + 1), x.acc ≤ log.after.bestAcc))) ∧
    (∀ log ∈ runFold initFoldState ms,
      (log.after.bestLoss ≤ log.before.bestLoss ∧
       log.before.bestAcc ≤ log.after.bestAcc ∧
       log.before.bestF1 ≤ log.after.bestF1) ∧
      (log.before.bestF1 < log.m.f1 →
        log.after.bestF1 = log.m.f1 ∧ log.savedBest = true) ∧
      (¬ log.before.bestF1 < log.m.f1 →
        log.after.bestF1 = log.before.bestF1 ∧ log.savedBest = false)) := by
  constructor
  · intro i log hget
    have hafter := runFold_after_getElem initFoldState ms i log hget
    have hlt : i < (runFold initFoldState ms).length := by
      rcases List.getElem?_eq_some.mp hget with ⟨hlt, -⟩
      exact hlt
    have hilen : i < ms.length := lt_of_lt_of_le hlt (runFold_length_le _ _)
    have hne : ms.take (i + 1) ≠ [] := by
      have hl : (ms.take (i + 1)).length = i + 1 := by
        rw [List.length_take]
        omega
      intro hnil
      rw [hnil] at hl
      simp at hl
    have hLoss : log.after.bestLoss = ((ms.take (i + 1)).map Metrics.loss).foldl minT ⊤ := by
      rw [hafter, foldStates_bestLoss]
      rfl
    have hAcc : log.after.bestAcc = ((ms.take (i + 1)).map Metrics.acc).foldl max 0 := by
      rw [hafter, foldStates_bestAcc]
      rfl
    have hF1 : log.after.bestF1 = ((ms.take (i + 1)).map Metrics.f1).foldl max 0 := by
      rw [hafter, foldStates_bestF1]
      rfl
    refine ⟨⟨hLoss, hAcc, hF1⟩, ?_, ?_, ?_, ?_⟩
    · rcases foldl_minT_attained ((ms.take (i + 1)).map Metrics.loss) ⊤ with htop | hx
      · exfalso
        rcases List.exists_mem_of_ne_nil _ hne with ⟨y, hy⟩
        have hb := (foldl_minT_bounds ((ms.take (i + 1)).map Metrics.loss) ⊤).2
          y.loss (List.mem_map_of_mem Metrics.loss hy)
        rw [htop] at hb
        exact absurd hb (by simp)
      · rcases hx with ⟨x, hxmem, hxeq⟩
        rcases List.mem_map.mp hxmem with ⟨y, hy, hyx⟩
        exact ⟨y, hy, by rw [hLoss, hxeq, hyx]⟩
    · intro x hx
      rw [hLoss]
      exact (foldl_minT_bounds _ ⊤).2 x.loss (List.mem_map_of_mem Metrics.loss hx)
    · rcases foldl_max_attained ((ms.take (i + 1)).map Metrics.acc) 0 with hzero | hx
      · rcases List.exists_mem_of_ne_nil _ hne with ⟨y, hy⟩
        refine ⟨y, hy, ?_⟩
        have hb := (foldl_max_bounds ((ms.take (i + 1)).map Metrics.acc) 0).2
          y.acc (List.mem_map_of_mem Metrics.acc hy)
        have hnn : 0 ≤ y.acc := hacc y (List.take_subset _ _ hy)
        rw [hAcc, hzero]
        rw [hzero] at hb
        exact le_antisymm hnn hb
      · rcases hx with ⟨x, hxmem, hxeq⟩
        rcases List.mem_map.mp hxmem with ⟨y, hy, hyx⟩
        exact ⟨y, hy, by rw [hAcc, hxeq, hyx]⟩
    · intro x hx
      rw [hAcc]
      exact (foldl_max_bounds _ 0).2 x.acc (List.mem_map_of_mem Metrics.acc hx)
  · intro log hmem
    have hstep := runFold_mem_step initFoldState ms log hmem
    refine ⟨?_, ?_, ?_⟩
    · rw [hstep.1, epochEndState_eq]
      exact ⟨min_le_left _ _, le_max_left _ _, le_max_left _ _⟩
    · intro h
      rw [hstep.1, hstep.2.1, epochEndState_eq]
      simp [max_eq_right (le_of_lt h), h]
    · intro h
      rw [hstep.1, hstep.2.1, epochEndState_eq]
      simp [max_eq_left (le_of_not_lt h), h]

/-- Witness for C3 on the concrete nine-epoch schedule: in the eighth
executed epoch the best loss does not increase, and with no F1
improvement the best F1 stays put and no best checkpoint is written. -/
theorem bestTrackers_spec_witness :
    epochSchedule7.after.bestLoss ≤ epochSchedule7.before.bestLoss ∧
    epochSchedule7.after.bestF1 = epochSchedule7.before.bestF1 ∧
    epochSchedule7.savedBest = false := by
  have h := bestTrackers_spec epochSchedule (by decide)
  have hm := h.2 epochSchedule7 (by decide)
  have hupd := hm.2.2 (by decide)
  exact ⟨hm.1.1, hupd.1, hupd.2⟩

/-! ## Lemmas about the validation-epoch accumulation -/

theorem valItems_foldl (net : Img → List ℚ) (crit : List (List ℚ) → List Nat → ℚ)
    (f1fn : List Nat → List Nat → ℚ) (batches : List (List (Img × Nat))) :
    ∀ acc : List ℚ × List Nat × List ℚ,
      batches.foldl
        (fun acc b =>
          let o := valBatch net crit f1fn b
          (acc.1 ++ [o.lossItem], acc.2.1 ++ [o.accItem], acc.2.2 ++ [o.f1Item]))
        acc =
      (acc.1 ++ batches.map (fun b => (valBatch net crit f1fn b).lossItem),
       acc.2.1 ++ batches.map (fun b => (valBatch net crit f1fn b).accItem),
       acc.2.2 ++ batches.map (fun b => (valBatch net crit f1fn b).f1Item)) := by
  induction batches with
  | nil => intro acc; simp
  | cons b bs ih =>
    intro acc
    rw [List.foldl_cons, ih]
    simp

theorem valItems_eq (net : Img → List ℚ) (crit : List (List ℚ) → List Nat → ℚ)
    (f1fn : List Nat → List Nat → ℚ) (batches : List (List (Img × Nat))) :
    valItems net crit f1fn batches =
      (batches.map (fun b => (valBatch net crit f1fn b).lossItem),
       batches.map (fun b => (valBatch net crit f1fn b).accItem),
       batches.map (fun b => (valBatch net crit f1fn b).f1Item)) := by
  rw [valItems, valItems_foldl]
  simp

/-- C4: at the end of every validation epoch, the reported validation
loss is the sum of the per-batch losses divided by the number of
validation batches, the reported validation macro-F1 is the sum of the
per-batch macro-F1 scores divided by the number of validation batches,
and the reported validation accuracy is the summed correct-prediction
count divided by the number of samples of the whole validation subset. -/
theorem valAggregation_spec (net : Img → List ℚ) (crit : List (List ℚ) → List Nat → ℚ)
    (f1fn : List Nat → List Nat → ℚ) (bs : Nat) (valSet : List (Img × Nat)) :
    (valEpoch net crit f1fn bs valSet).valLoss =
      ((dropLastBatches bs valSet).map (fun b => (valBatch net crit f1fn b).lossItem)).sum /
        ((dropLastBatches bs valSet).length : ℚ) ∧
    (valEpoch net crit f1fn bs valSet).valF1 =
      ((dropLastBatches bs valSet).map (fun b => (valBatch net crit f1fn b).f1Item)).sum /
        ((dropLastBatches bs valSet).length : ℚ) ∧
    (valEpoch net crit f1fn bs valSet).valAcc =
      (((dropLastBatches bs valSet).map (fun b => (valBatch net crit f1fn b).accItem)).sum : ℚ) /
        (valSet.length : ℚ) := by
  rw [valEpoch, valItems_eq]
  exact ⟨rfl, rfl, rfl⟩

/-- C6: when the custom augmentation policy is enabled, in every
training batch the augmentation is applied exactly to the samples whose
label is not in the exempt set 0, 1, 3, 4 (the others pass through
unaugmented); and during validation neither cutmix nor the custom
augmentation touches any batch: every validation batch's predictions,
loss, correct count and macro-F1 are computed from the raw batch inputs
and labels only. -/
theorem augmentationPolicy_spec (aug : Img → Img) (batch : List (Img × Nat))
    (net : Img → List ℚ) (crit : List (List ℚ) → List Nat → ℚ)
    (f1fn : List Nat → List Nat → ℚ) (bs : Nat) (valSet : List (Img × Nat)) :
    applyCustomAug aug batch =
      batch.map (fun p => if p.2 ∈ exemptLabels then p.1 else aug p.1) ∧
    (∀ b ∈ dropLastBatches bs valSet,
      (valBatch net crit f1fn b).preds = b.map (fun p => argmaxIdx (net p.1)) ∧
      (valBatch net crit f1fn b).lossItem =
        crit (b.map (fun p => net p.1)) (b.map Prod.snd) ∧
      (valBatch net crit f1fn b).accItem =
        countEq (b.map Prod.snd) (b.map (fun p => argmaxIdx (net p.1))) ∧
      (valBatch net crit f1fn b).f1Item =
        f1fn (b.map Prod.snd) (b.map (fun p => argmaxIdx (net p.1)))) := by
  constructor
  · induction batch with
    | nil => rfl
    | cons p rest ih =>
      rcases p with ⟨input, label⟩
      rw [applyCustomAug, List.map_cons, ih]
      by_cases h : label ∈ exemptLabels
      · simp [h]
      · simp [h]
  · intro b _
    refine ⟨?_, ?_, ?_, ?_⟩ <;> simp [valBatch, List.map_map, Function.comp_def]

/-- Witness for C6: in the concrete train batch the label-2 sample is
augmented and the label-0 sample passes through; the concrete validation
batch's predictions come from the raw inputs. -/
theorem augmentationPolicy_spec_witness :
    applyCustomAug probeAug augBatchProbe = [10, 12] ∧
    (valBatch probeNet probeCrit probeF1 valBatchProbe).preds =
      valBatchProbe.map (fun p => argmaxIdx (probeNet p.1)) := by
  have h := augmentationPolicy_spec probeAug augBatchProbe probeNet probeCrit probeF1
    2 valSetProbe
  refine ⟨?_, (h.2 valBatchProbe (by decide)).1⟩
  rw [h.1]
  decide

/-- C10: the validation data loader also drops the final incomplete
batch: the samples the validation loop consumes are exactly the first
bs * (len / bs) samples of the validation subset, so when the subset
size is not a multiple of the batch size the final partial batch's
samples are never predicted and contribute to none of the sums, while
the accuracy denominator stays the full validation subset size. -/
theorem valLoaderDrop_spec (dataset : List (Img × Nat)) (train_idx valid_idx : List Nat)
    (num_workers : Nat) (net : Img → List ℚ) (crit : List (List ℚ) → List Nat → ℚ)
    (f1fn : List Nat → List Nat → ℚ) (bs : Nat) (valSet : List (Img × Nat))
    (hbs : 0 < bs) :
    (getDataloader dataset train_idx valid_idx bs num_workers).2.2.dropLast = true ∧
    (dropLastBatches bs valSet).flatten = valSet.take (bs * (valSet.length / bs)) ∧
    ((dropLastBatches bs valSet).flatten).length = bs * (valSet.length / bs) ∧
    (¬ valSet.length % bs = 0 →
      ((dropLastBatches bs valSet).flatten).length < valSet.length) ∧
    (valEpoch net crit f1fn bs valSet).valAcc =
      (((dropLastBatches bs valSet).map (fun b => (valBatch net crit f1fn b).accItem)).sum : ℚ) /
        (valSet.length : ℚ) ∧
    (valEpoch net crit f1fn bs valSet).valLoss =
      ((dropLastBatches bs valSet).map (fun b => (valBatch net crit f1fn b).lossItem)).sum /
        ((dropLastBatches bs valSet).length : ℚ) := by
  have hflat := dropLastBatches_flatten bs hbs valSet
  have hmul : bs * (valSet.length / bs) ≤ valSet.length := by
    rw [Nat.mul_comm]
    exact Nat.div_mul_le_self valSet.length bs
  have hlen : ((dropLastBatches bs valSet).flatten).length = bs * (valSet.length / bs) := by
    rw [hflat, List.length_take]
    omega
  refine ⟨rfl, hflat, hlen, ?_, ?_, ?_⟩
  · intro hmod
    rw [hlen]
    have := Nat.div_add_mod valSet.length bs
    omega
  · rw [valEpoch, valItems_eq]
  · rw [valEpoch, valItems_eq]

/-- Witness for C10 on the concrete three-sample validation subset with
batch size 2: only the first two samples are consumed, strictly fewer
than the subset size. -/
theorem valLoaderDrop_spec_witness :
    (dropLastBatches 2 valSetProbe).flatten =
      valSetProbe.take (2 * (valSetProbe.length / 2)) ∧
    ((dropLastBatches 2 valSetProbe).flatten).length < valSetProbe.length := by
  have h := valLoaderDrop_spec [] [] [] 0 probeNet probeCrit probeF1 2 valSetProbe
    (by decide)
  exact ⟨h.2.1, h.2.2.2.1 (by decide)⟩

/-! ## Lemmas about the end-of-run aggregation -/

theorem runKFold_foldl (foldsMs : List (List Metrics)) :
    ∀ rs : RunState,
      foldsMs.foldl
        (fun rs ms =>
          let s := foldFinal initFoldState ms
          { kfoldValLoss := rs.kfoldValLoss ++ [s.bestLoss],
            kfoldValAcc := rs.kfoldValAcc ++ [s.bestAcc],
            kfoldValF1 := rs.kfoldValF1 ++ [s.bestF1] : RunState })
        rs =
      { kfoldValLoss := rs.kfoldValLoss ++
          foldsMs.map (fun ms => (foldFinal initFoldState ms).bestLoss),
        kfoldValAcc := rs.kfoldValAcc ++
          foldsMs.map (fun ms => (foldFinal initFoldState ms).bestAcc),
        kfoldValF1 := rs.kfoldValF1 ++
          foldsMs.map (fun ms => (foldFinal initFoldState ms).bestF1) } := by
  induction foldsMs with
  | nil => intro rs; simp
  | cons ms rest ih =>
    intro rs
    rw [List.foldl_cons, ih]
    simp

theorem runKFold_eq (foldsMs : List (List Metrics)) :
    runKFold foldsMs =
      { kfoldValLoss := foldsMs.map (fun ms => (foldFinal initFoldState ms).bestLoss),
        kfoldValAcc := foldsMs.map (fun ms => (foldFinal initFoldState ms).bestAcc),
        kfoldValF1 := foldsMs.map (fun ms => (foldFinal initFoldState ms).bestF1) } := by
  rw [runKFold, runKFold_foldl]
  simp

/-- C5: after all folds complete, the run collects each fold's final
best loss, best accuracy and best F1 into three parallel sequences
indexed by fold, and reports sums over 5 of those sequences as the
headline metrics; as written, the value labelled mean accuracy is
computed from the best-loss sequence and the value labelled mean loss
from the best-accuracy sequence (cross-wired), while the mean F1 is
computed from the best-F1 sequence. -/
theorem runAggregator_spec (foldsMs : List (List Metrics)) :
    (runKFold foldsMs).kfoldValLoss =
      foldsMs.map (fun ms => (foldFinal initFoldState ms).bestLoss) ∧
    (runKFold foldsMs).kfoldValAcc =
      foldsMs.map (fun ms => (foldFinal initFoldState ms).bestAcc) ∧
    (runKFold foldsMs).kfoldValF1 =
      foldsMs.map (fun ms => (foldFinal initFoldState ms).bestF1) ∧
    (finalReport foldsMs).meanAcc =
      divTop (foldsMs.map (fun ms => (foldFinal initFoldState ms).bestLoss)).sum 5 ∧
    (finalReport foldsMs).meanLoss =
      (foldsMs.map (fun ms => (foldFinal initFoldState ms).bestAcc)).sum / 5 ∧
    (finalReport foldsMs).meanF1 =
      (foldsMs.map (fun ms => (foldFinal initFoldState ms).bestF1)).sum / 5 := by
  rw [finalReport, runKFold_eq]
  exact ⟨rfl, rfl, rfl, rfl, rfl, rfl⟩

/-! ## Checkpoint-file claims -/

/-- Counterexample to C8 as stated: folds do not get their own save
directories - save_dir is computed once, before the fold loop, so folds
0 and 1 share the same directory and the very same best.pth and last.pth
files (a later fold overwrites an earlier fold's checkpoints). -/
theorem ckptPath_shared_counterexample :
    foldSaveDir "./model/exp" 0 = foldSaveDir "./model/exp" 1 ∧
    bestCkptPath (foldSaveDir "./model/exp" 0) =
      bestCkptPath (foldSaveDir "./model/exp" 1) ∧
    lastCkptPath (foldSaveDir "./model/exp" 0) =
      lastCkptPath (foldSaveDir "./model/exp" 1) :=
  ⟨rfl, rfl, rfl⟩

/-- C8 amended: all folds of a run write their checkpoints into the
single run-level save directory, and every checkpoint write of the whole
run targets one of exactly two paths, save_dir/best.pth and
save_dir/last.pth - each overwritten in place, never versioned, so at
any time at most one best and one last checkpoint file exist for the
run (shared across folds). -/
theorem ckptPaths_run_spec (save_dir : String) (foldsMs : List (List Metrics)) :
    ∀ p ∈ runEvents save_dir foldsMs,
      p = bestCkptPath save_dir ∨ p = lastCkptPath save_dir := by
  intro p hp
  rw [runEvents] at hp
  rw [List.mem_flatten] at hp
  rcases hp with ⟨l, hl, hpl⟩
  rw [List.mem_map] at hl
  rcases hl with ⟨pair, -, hpair⟩
  rw [← hpair, foldEvents, List.mem_flatten] at hpl
  rcases hpl with ⟨l', hl', hpl'⟩
  rw [List.mem_map] at hl'
  rcases hl' with ⟨log, -, hlog⟩
  rw [← hlog, List.mem_append] at hpl'
  rcases hpl' with h | h
  · left
    by_cases hb : log.savedBest
    · rw [if_pos hb, List.mem_singleton] at h
      rw [h]
      rfl
    · rw [if_neg hb] at h
      simp at h
  · right
    by_cases hb : log.savedLast
    · rw [if_pos hb, List.mem_singleton] at h
      rw [h]
      rfl
    · rw [if_neg hb] at h
      simp at h

/-- Witness for the amended C8 on a one-fold, one-epoch run with save
directory d. -/
theorem ckptPaths_run_spec_witness :
    "d/best.pth" = bestCkptPath "d" ∨ "d/best.pth" = lastCkptPath "d" :=
  ckptPaths_run_spec "d" [[⟨1, 1, 1⟩]] "d/best.pth" (by decide)

end TrainSweepKFold
